import Mathlib

/-!
Shallow embedding of the message-loop concurrency runtime of the
looper_handler_cpp repository (Message / MessageQueue / Looper / Handler /
HandlerThread / WorkerThread), translated from `src/looper_handler.cpp`,
`src/HandlerThread.cpp`, `src/WorkerThread.cpp` and the headers.

Modelling conventions:
* `std::chrono::steady_clock::time_point` deadlines become `Nat`.
* Thread identifiers (`std::thread::id`) become `Nat`.
* `std::shared_ptr<Handler>` targets become `Option Nat` (the handler's
  identity); a null pointer is `none`.
* `std::any obj` payloads become `Option Nat` (presence of a payload is
  distinguishable from absence; the payload itself is treated as an
  identifier).
* A user runnable (`std::function<void()>`) is abstracted by the effect it
  can have on the loop that the claims talk about: it can return normally,
  throw an exception, or quit the looper (the terminal runnable of
  `WorkerThread::finish` does exactly that).  Other side effects do not
  touch the modelled state.
* The single consumer thread is modelled sequentially: blocking on the
  condition variable with no concurrent producer and with the monotonic
  clock advancing means `next()` eventually yields the front message, or
  never returns when the queue stays empty, or returns `nullopt` when
  quitting.
-/

/-- Abstraction of the observable behaviour of a user runnable or of a
`handleMessage` body: return normally, throw an exception, or quit the
looper (via `Looper::quit`, as the terminal runnable of
`WorkerThread::finish` does). -/
inductive CbAct where
  | ret
  | raise
  | quitLooper
deriving DecidableEq

/-- Translation of `struct Message` from looper_handler.h: user code
`what`, integer args, optional payload `obj`, optional `target` handler,
optional `callback` runnable and the `when` deadline (set at enqueue). -/
structure Message where
  what : Int := 0
  arg1 : Int := 0
  arg2 : Int := 0
  obj : Option Nat := none
  target : Option Nat := none
  callback : Option CbAct := none
  when : Nat := 0
deriving DecidableEq

/-- Translation of the convenience constructor `Message(cb, target)` used
by `Handler::postAtTime`: a message whose payload is just a runnable. -/
def Message.ofCallback (cb : CbAct) (t : Option Nat) : Message :=
  { callback := some cb, target := t }

/-- Translation of `class MessageQueue`: the `std::deque<Message>`
ordered by `when` plus the `mQuitting` flag.  The mutex and condition
variable synchronise the concurrent accesses; the sequential model keeps
the state they protect. -/
structure MessageQueue where
  mMessages : List Message
  mQuitting : Bool
deriving DecidableEq

/-- Translation of the `std::upper_bound` insertion in
`MessageQueue::enqueueMessage`: the new message is placed before the first
queued message with a strictly larger `when` (so after all messages whose
`when` is smaller or equal). -/
def insertByWhen (m : Message) : List Message → List Message
  | [] => [m]
  | x :: xs => if m.when < x.when then m :: x :: xs else x :: insertByWhen m xs

/-- Translation of `MessageQueue::enqueueMessage`: fails (returning
`false`, queue untouched) when quitting, otherwise sets `msg.when` and
inserts the message sorted by `when`, returning `true`. -/
def MessageQueue.enqueueMessage (q : MessageQueue) (msg : Message) (w : Nat) :
    Bool × MessageQueue :=
  if q.mQuitting then (false, q)
  else (true, { q with mMessages := insertByWhen { msg with when := w } q.mMessages })

/-- Translation of `MessageQueue::quit`: on the first call it sets
`mQuitting` and clears all pending messages (and broadcasts); a second
call finds `mQuitting` already set and does nothing. -/
def MessageQueue.quit (q : MessageQueue) : MessageQueue :=
  if q.mQuitting then q else { mMessages := [], mQuitting := true }

/-- Translation of `MessageQueue::isQuitting`. -/
def MessageQueue.isQuitting (q : MessageQueue) : Bool :=
  q.mQuitting

/-- Translation of `MessageQueue::removeMessages`: erases every pending
message with this target, this `what` and no callback; does nothing when
quitting. -/
def MessageQueue.removeMessages (q : MessageQueue) (h : Nat) (what : Int) :
    MessageQueue :=
  if q.mQuitting then q
  else
    { q with
      mMessages := q.mMessages.filter
        (fun m => !(decide (m.target = some h) && decide (m.what = what)
          && decide (m.callback = none))) }

/-- Translation of `MessageQueue::removeCallbacks`: erases every pending
message with this target that has a callback; does nothing when
quitting. -/
def MessageQueue.removeCallbacks (q : MessageQueue) (h : Nat) : MessageQueue :=
  if q.mQuitting then q
  else
    { q with
      mMessages := q.mMessages.filter
        (fun m => !(decide (m.target = some h) && decide (m.callback ≠ none))) }

/-- Possible outcomes of one call to `MessageQueue::next` on the owning
thread, with the monotonic clock advancing and no concurrent mutation:
the call returns `nullopt` when quitting, yields the front message once
its deadline passes, and never returns while the queue stays empty. -/
inductive NextRes where
  | msg (m : Message)
  | nullopt
  | blocked
deriving DecidableEq

/-- Translation of `MessageQueue::next`: the wait loop checks `mQuitting`
first (returning `nullopt`), then pops the front message once `when <=
now` (the front is the earliest deadline, and `wait_until` lets `now`
reach it), and otherwise keeps blocking on the condition variable. -/
def MessageQueue.nextEventual (q : MessageQueue) : NextRes :=
  if q.mQuitting then NextRes.nullopt
  else
    match q.mMessages with
    | [] => NextRes.blocked
    | m :: _ => NextRes.msg m

/-- State change of the `pop_front` performed by `MessageQueue::next`
when it yields a message. -/
def MessageQueue.popFront (q : MessageQueue) : MessageQueue :=
  match q.mMessages with
  | [] => q
  | _ :: rest => { q with mMessages := rest }

/-- Repeated `MessageQueue::next` calls (no dispatch effects): each call
yields the front message or stops the drain on `nullopt`/blocking.  The
fuel is the number of pending messages, which bounds the number of
successful `next` calls since nothing is enqueued meanwhile. -/
def MessageQueue.drainFuel : Nat → MessageQueue → List Message
  | 0, _ => []
  | Nat.succ fuel, q =>
    match q.nextEventual with
    | NextRes.msg m => m :: MessageQueue.drainFuel fuel q.popFront
    | _ => []

/-- The full sequence of messages that repeated `next()` calls yield on
the owning thread, absent concurrent enqueues. -/
def MessageQueue.drain (q : MessageQueue) : List Message :=
  MessageQueue.drainFuel q.mMessages.length q

/-- How one dequeued message was handled by the dispatch section of
`Looper::loop`: the callback ran, the target handler's
`dispatchMessage`/`handleMessage` ran, or the message was discarded with
a warning and no user code ran. -/
inductive Dispatched where
  | viaCallback (act : CbAct)
  | viaHandler (h : Nat) (act : CbAct)
  | dropped
deriving DecidableEq

/-- Translation of `Handler::dispatchMessage`: the default implementation
just delegates to the (virtual) `handleMessage`, whose behaviour for
handler `h` is given by the environment `handle`. -/
def Handler.dispatchMessage (handle : Nat → Message → CbAct) (h : Nat)
    (msg : Message) : CbAct :=
  handle h msg

/-- Translation of the dispatch section of `Looper::loop` for one
dequeued message: with a target, a callback message runs its callback and
a plain message goes through `target->dispatchMessage`; without a target,
a callback message still runs its callback ("running callback anyway")
and a plain message is discarded with a warning.  Every user invocation
is wrapped in try/catch, so a raising `CbAct` is recorded but never
propagates. -/
def Looper.dispatchOne (handle : Nat → Message → CbAct) (msg : Message) :
    Dispatched :=
  match msg.target with
  | some h =>
    match msg.callback with
    | some act => Dispatched.viaCallback act
    | none => Dispatched.viaHandler h (Handler.dispatchMessage handle h msg)
  | none =>
    match msg.callback with
    | some act => Dispatched.viaCallback act
    | none => Dispatched.dropped

/-- Effect of a completed user invocation on the queue: quitting the
looper forwards to `MessageQueue::quit`; returning normally or throwing a
caught exception leaves the queue alone. -/
def CbAct.effect : CbAct → MessageQueue → MessageQueue
  | CbAct.quitLooper, q => q.quit
  | CbAct.ret, q => q
  | CbAct.raise, q => q

/-- Effect of one dispatched message on the queue. -/
def Looper.dispatchEffect (d : Dispatched) (q : MessageQueue) : MessageQueue :=
  match d with
  | Dispatched.viaCallback act => act.effect q
  | Dispatched.viaHandler _ act => act.effect q
  | Dispatched.dropped => q

/-- Translation of the `while (true)` pump of `Looper::loop`: call
`next()`; exit on `nullopt` (or block forever on an empty, non-quitting
queue, dispatching nothing more); otherwise dispatch the message inside
try/catch and iterate.  The fuel is the number of pending messages, which
bounds the iterations since each one pops a message and dispatch can only
shrink the queue. -/
def Looper.runLoopFuel (handle : Nat → Message → CbAct) :
    Nat → MessageQueue → List (Message × Dispatched)
  | 0, _ => []
  | Nat.succ fuel, q =>
    match q.nextEventual with
    | NextRes.msg m =>
      let d := Looper.dispatchOne handle m
      (m, d) :: Looper.runLoopFuel handle fuel (Looper.dispatchEffect d q.popFront)
    | _ => []

/-- The sequence of (message, how it was dispatched) pairs produced by
`Looper::loop` pumping the given queue until `next()` returns `nullopt`
or blocks forever. -/
def Looper.runLoop (handle : Nat → Message → CbAct) (q : MessageQueue) :
    List (Message × Dispatched) :=
  Looper.runLoopFuel handle q.mMessages.length q

/-- Translation of `class Looper`: it exclusively owns its `MessageQueue`
and records the identifier of its owning thread. -/
structure Looper where
  mQueue : MessageQueue
  mThreadId : Nat
deriving DecidableEq

/-- Translation of `Looper::quit`: forwards to the queue. -/
def Looper.quit (l : Looper) : Looper :=
  { l with mQueue := l.mQueue.quit }

/-- Error kinds thrown by `Looper::prepare` and `Looper::loop`
(`std::runtime_error` in the source). -/
inductive LooperErr where
  | alreadyPrepared
  | noLooper
  | wrongThread
deriving DecidableEq

/-- Translation of `Looper::prepare` running on thread `tid`: throws when
the thread-local slot already holds a Looper, otherwise creates a fresh
Looper (empty, non-quitting queue) owned by `tid`. -/
def Looper.prepare (slot : Option Looper) (tid : Nat) : Except LooperErr Looper :=
  match slot with
  | some _ => Except.error LooperErr.alreadyPrepared
  | none => Except.ok { mQueue := { mMessages := [], mQuitting := false }, mThreadId := tid }

/-- Translation of the entry checks of `Looper::loop` invoked on thread
`tid`: throws `noLooper` when the thread-local slot is empty, throws
`wrongThread` when the slot's Looper is owned by a different thread, and
only then pumps the queue. -/
def Looper.loopEntry (slot : Option Looper) (tid : Nat)
    (handle : Nat → Message → CbAct) :
    Except LooperErr (List (Message × Dispatched)) :=
  match slot with
  | none => Except.error LooperErr.noLooper
  | some me =>
    if me.mThreadId = tid then Except.ok (Looper.runLoop handle me.mQueue)
    else Except.error LooperErr.wrongThread

/-- Translation of `class Handler`: always used through a shared handle;
the model keeps the identity of that handle.  The Looper's queue a
handler posts into is passed explicitly as state. -/
structure Handler where
  id : Nat
deriving DecidableEq

/-- Translation of `Handler::sendMessageAtTime`: sets `msg.target =
shared_from_this()` (overwriting any previous target) and enqueues into
the handler's queue at the given deadline. -/
def Handler.sendMessageAtTime (h : Handler) (msg : Message) (uptime : Nat)
    (q : MessageQueue) : Bool × MessageQueue :=
  q.enqueueMessage { msg with target := some h.id } uptime

/-- Translation of `Handler::sendMessage`: enqueue at `now`. -/
def Handler.sendMessage (h : Handler) (msg : Message) (now : Nat)
    (q : MessageQueue) : Bool × MessageQueue :=
  Handler.sendMessageAtTime h msg now q

/-- Translation of `Handler::sendMessageDelayed`: negative delays are
clamped to zero, then enqueue at `now + delay`. -/
def Handler.sendMessageDelayed (h : Handler) (msg : Message)
    (delayMillis : Int) (now : Nat) (q : MessageQueue) : Bool × MessageQueue :=
  Handler.sendMessageAtTime h msg
    (now + (if delayMillis < 0 then 0 else delayMillis).toNat) q

/-- Translation of `Handler::postAtTime`: wraps the runnable in a
`Message(cb, shared_from_this())` and enqueues it at the given
deadline. -/
def Handler.postAtTime (h : Handler) (cb : CbAct) (uptime : Nat)
    (q : MessageQueue) : Bool × MessageQueue :=
  q.enqueueMessage (Message.ofCallback cb (some h.id)) uptime

/-- Translation of `Handler::post`: post at `now`. -/
def Handler.post (h : Handler) (cb : CbAct) (now : Nat) (q : MessageQueue) :
    Bool × MessageQueue :=
  Handler.postAtTime h cb now q

/-- Translation of `Handler::postDelayed`: negative delays are clamped to
zero, then post at `now + delay`. -/
def Handler.postDelayed (h : Handler) (cb : CbAct) (delayMillis : Int)
    (now : Nat) (q : MessageQueue) : Bool × MessageQueue :=
  Handler.postAtTime h cb (now + (if delayMillis < 0 then 0 else delayMillis).toNat) q

/-- Translation of `Message::sendToTarget`: fails when the message has no
target; otherwise delegates to the target handler's `sendMessageAtTime`
with `now` as the deadline. -/
def Message.sendToTarget (msg : Message) (now : Nat) (q : MessageQueue) :
    Bool × MessageQueue :=
  match msg.target with
  | none => (false, q)
  | some t => Handler.sendMessageAtTime { id := t } msg now q

/-- Translation of `WorkerThread::finish`: posts (through the worker's
internal handler, at deadline `now`, no extra delay) a terminal runnable
whose body is `this->quit()`, i.e. `Looper::quit` on the worker's
looper. -/
def WorkerThread.finish (h : Handler) (now : Nat) (q : MessageQueue) :
    Bool × MessageQueue :=
  Handler.post h CbAct.quitLooper now q

/-- Modelled from the spec: the definition of `WorkerThread::finishNow`
is missing from the sources (WorkerThread.h declares it and
WorkerThread_test.cpp exercises it, but WorkerThread.cpp does not define
it).  The spec states that `finish_now()` calls `Looper::quit()`
directly, discarding all pending runnables except the one currently
executing, and returns `true` when the stop request was issued. -/
def WorkerThread.finishNow (l : Looper) : Bool × Looper :=
  (true, Looper.quit l)

/-- The interleaving exercised by the `FinishNowSkipsQueuedTasks` test:
the loop has already dequeued the front message and is executing it when
`finishNow` runs on another thread; the in-flight message completes, its
effect applies, and the loop then resumes pumping the quit queue. -/
def WorkerThread.finishNowDuringDispatch (handle : Nat → Message → CbAct)
    (l : Looper) : List (Message × Dispatched) :=
  match MessageQueue.nextEventual l.mQueue with
  | NextRes.msg m =>
    let d := Looper.dispatchOne handle m
    let l1 : Looper := { l with mQueue := MessageQueue.popFront l.mQueue }
    let l2 := (WorkerThread.finishNow l1).2
    (m, d) :: Looper.runLoop handle (Looper.dispatchEffect d l2.mQueue)
  | _ => []

/-- Result of one `HandlerThread::getLooper` call: either it returns (an
optional looper) or it blocks on the unfulfilled future. -/
inductive GetLooperRes where
  | blocked
  | ret (l : Option Looper)
deriving DecidableEq

/-- Translation of `HandlerThread::run` as seen through the one-shot
channel: the spawned thread publishes the prepared Looper through
`mLooperPromise.set_value`, or publishes the caught exception through
`set_exception` when `prepare` or the early loop setup throws.  Either
way the channel ends up fulfilled. -/
def HandlerThread.runPublish (prep : Except String Looper) :
    Option (Except String Looper) :=
  some prep

/-- Translation of the first `HandlerThread::getLooper` call: when the
thread was never started (`mThread` not joinable) it returns null without
touching the future; otherwise it blocks on the shared future until the
channel is fulfilled, returning the published Looper, or null when the
published failure is rethrown by `get()` and caught. -/
def HandlerThread.getLooperStep (started : Bool)
    (chan : Option (Except String Looper)) : GetLooperRes :=
  if started = false then GetLooperRes.ret none
  else
    match chan with
    | none => GetLooperRes.blocked
    | some (Except.ok l) => GetLooperRes.ret (some l)
    | some (Except.error _) => GetLooperRes.ret none

/-- The queue operations available after `quit` returns (used to state
permanence of the quit state): enqueue, quit again, a `next` call, and
the two removal operations. -/
inductive QueueOp where
  | enq (m : Message) (w : Nat)
  | qt
  | req
  | remMsgs (h : Nat) (what : Int)
  | remCbs (h : Nat)

/-- State change of one queue operation (a completed `next` call pops the
yielded message and changes nothing otherwise). -/
def MessageQueue.applyOp (q : MessageQueue) : QueueOp → MessageQueue
  | QueueOp.enq m w => (q.enqueueMessage m w).2
  | QueueOp.qt => q.quit
  | QueueOp.req =>
    match q.nextEventual with
    | NextRes.msg _ => q.popFront
    | _ => q
  | QueueOp.remMsgs h what => q.removeMessages h what
  | QueueOp.remCbs h => q.removeCallbacks h

/-- State after a sequence of queue operations. -/
def MessageQueue.applyOps (q : MessageQueue) (ops : List QueueOp) : MessageQueue :=
  ops.foldl MessageQueue.applyOp q

/-- A sequence of `enqueueMessage` calls (message, deadline), threading
the queue state; used to state the ordering guarantee. -/
def MessageQueue.enqueueAll (ps : List (Message × Nat)) (q : MessageQueue) :
    MessageQueue :=
  ps.foldl (fun acc p => (acc.enqueueMessage p.1 p.2).2) q

/-- The boolean results of a sequence of `enqueueMessage` calls. -/
def MessageQueue.enqueueResults (q : MessageQueue) :
    List (Message × Nat) → List Bool
  | [] => []
  | p :: ps =>
    let r := q.enqueueMessage p.1 p.2
    r.1 :: MessageQueue.enqueueResults r.2 ps

/-- The enqueued messages tagged with their enqueue index (starting at
`i`) and carrying their assigned deadline, in enqueue order. -/
def tagMsgs : Nat → List (Message × Nat) → List (Nat × Message)
  | _, [] => []
  | i, p :: ps => (i, { p.1 with when := p.2 }) :: tagMsgs (i + 1) ps

/-- Strict ordering by (ascending deadline, ascending enqueue index) on
tagged messages. -/
def tagLt (a b : Nat × Message) : Prop :=
  a.2.when < b.2.when ∨ (a.2.when = b.2.when ∧ a.1 < b.1)

/-- The `upper_bound` insertion on tagged messages (tags are carried
along, comparison only looks at `when`); proof-side mirror of
`insertByWhen`. -/
def insertByWhenT (t : Nat × Message) : List (Nat × Message) → List (Nat × Message)
  | [] => [t]
  | x :: xs => if t.2.when < x.2.when then t :: x :: xs else x :: insertByWhenT t xs

/-- Queue contents with enqueue tags after a sequence of enqueues
starting from tag `i` and tagged contents `L`; proof-side mirror of
`enqueueAll`. -/
def enqueueAllT : Nat → List (Message × Nat) → List (Nat × Message) → List (Nat × Message)
  | _, [], L => L
  | i, p :: ps, L => enqueueAllT (i + 1) ps (insertByWhenT (i, { p.1 with when := p.2 }) L)

/-! Basic lemmas about the queue operations. -/

theorem enqueueMessage_of_quitting {q : MessageQueue} (m : Message) (w : Nat)
    (h : q.mQuitting = true) : q.enqueueMessage m w = (false, q) := by
  simp [MessageQueue.enqueueMessage, h]

theorem enqueueMessage_of_not_quitting {q : MessageQueue} (m : Message) (w : Nat)
    (h : q.mQuitting = false) :
    q.enqueueMessage m w =
      (true, { q with mMessages := insertByWhen { m with when := w } q.mMessages }) := by
  simp [MessageQueue.enqueueMessage, h]

theorem enqueueMessage_snd_mQuitting (q : MessageQueue) (m : Message) (w : Nat) :
    (q.enqueueMessage m w).2.mQuitting = q.mQuitting := by
  by_cases h : q.mQuitting <;> simp [MessageQueue.enqueueMessage, h]

theorem quit_of_not_quitting {q : MessageQueue} (h : q.mQuitting = false) :
    q.quit = { mMessages := [], mQuitting := true } := by
  simp [MessageQueue.quit, h]

theorem quit_mQuitting (q : MessageQueue) : q.quit.mQuitting = true := by
  by_cases h : q.mQuitting <;> simp [MessageQueue.quit, h]

theorem applyOp_of_quitting (q : MessageQueue) (op : QueueOp)
    (h : q.mQuitting = true) : q.applyOp op = q := by
  cases op <;>
    simp [MessageQueue.applyOp, MessageQueue.enqueueMessage, MessageQueue.quit,
      MessageQueue.nextEventual, MessageQueue.removeMessages,
      MessageQueue.removeCallbacks, h]

theorem applyOps_of_quitting (q : MessageQueue) (ops : List QueueOp)
    (h : q.mQuitting = true) : q.applyOps ops = q := by
  induction ops generalizing q with
  | nil => rfl
  | cons op ops ih =>
    show MessageQueue.applyOps (q.applyOp op) ops = q
    rw [applyOp_of_quitting q op h]
    exact ih q h

/-- C3: `MessageQueue::quit` is idempotent, removes every pending message,
and from the moment it returns the queue permanently contains no messages
(under any further sequence of queue operations) and every subsequent
`enqueueMessage` call returns `false` leaving the queue unchanged. -/
theorem C3_quit_idempotent_permanent (q : MessageQueue) (ops : List QueueOp)
    (m : Message) (w : Nat) (hq : q.mQuitting = false) :
    q.quit.quit = q.quit ∧
    q.quit.mMessages = [] ∧
    (q.quit.applyOps ops).mMessages = [] ∧
    (q.quit.applyOps ops).mQuitting = true ∧
    ((q.quit.applyOps ops).enqueueMessage m w).1 = false ∧
    ((q.quit.applyOps ops).enqueueMessage m w).2 = q.quit.applyOps ops := by
  have h1 : q.quit = { mMessages := [], mQuitting := true } := quit_of_not_quitting hq
  have h2 : q.quit.applyOps ops = q.quit :=
    applyOps_of_quitting _ _ (quit_mQuitting q)
  refine ⟨?_, ?_, ?_, ?_, ?_, ?_⟩
  · rw [h1]; rfl
  · rw [h1]
  · rw [h2, h1]
  · rw [h2]; exact quit_mQuitting q
  · rw [h2]; exact congrArg Prod.fst (enqueueMessage_of_quitting m w (quit_mQuitting q))
  · rw [h2]; exact congrArg Prod.snd (enqueueMessage_of_quitting m w (quit_mQuitting q))

theorem C3_witness :
    (MessageQueue.quit (MessageQueue.quit { mMessages := [{ what := 1 }], mQuitting := false })
      = MessageQueue.quit { mMessages := [{ what := 1 }], mQuitting := false }) ∧
    (MessageQueue.quit { mMessages := [{ what := 1 }], mQuitting := false }).mMessages = [] ∧
    ((MessageQueue.quit { mMessages := [{ what := 1 }], mQuitting := false }).applyOps
      [QueueOp.enq {} 0, QueueOp.req, QueueOp.qt]).mMessages = [] ∧
    ((MessageQueue.quit { mMessages := [{ what := 1 }], mQuitting := false }).applyOps
      [QueueOp.enq {} 0, QueueOp.req, QueueOp.qt]).mQuitting = true ∧
    (((MessageQueue.quit { mMessages := [{ what := 1 }], mQuitting := false }).applyOps
      [QueueOp.enq {} 0, QueueOp.req, QueueOp.qt]).enqueueMessage {} 5).1 = false ∧
    (((MessageQueue.quit { mMessages := [{ what := 1 }], mQuitting := false }).applyOps
      [QueueOp.enq {} 0, QueueOp.req, QueueOp.qt]).enqueueMessage {} 5).2
      = (MessageQueue.quit { mMessages := [{ what := 1 }], mQuitting := false }).applyOps
          [QueueOp.enq {} 0, QueueOp.req, QueueOp.qt] :=
  C3_quit_idempotent_permanent _ _ {} 5 rfl

/-- C4: `enqueueMessage` returns `false` exactly when the queue is
quitting at the time of the call, leaving the queue unchanged in that
case, and `next` returns `nullopt` exactly when the queue is quitting;
the only other outcomes of `next` are yielding a ready message or
continuing to block. -/
theorem C4_failure_iff_quitting (q : MessageQueue) (m : Message) (w : Nat) :
    ((q.enqueueMessage m w).1 = false ↔ q.mQuitting = true) ∧
    (q.mQuitting = true → (q.enqueueMessage m w).2 = q) ∧
    (q.nextEventual = NextRes.nullopt ↔ q.mQuitting = true) := by
  refine ⟨?_, ?_, ?_⟩
  · by_cases h : q.mQuitting <;> simp [MessageQueue.enqueueMessage, h]
  · intro h; simp [MessageQueue.enqueueMessage, h]
  · by_cases h : q.mQuitting
    · simp [MessageQueue.nextEventual, h]
    · simp only [MessageQueue.nextEventual, h, Bool.false_eq_true, if_false]
      cases q.mMessages <;> simp

theorem C4_witness :
    (MessageQueue.enqueueMessage { mMessages := [], mQuitting := true } {} 0).1 = false ∧
    (MessageQueue.enqueueMessage { mMessages := [], mQuitting := true } {} 0).2
      = { mMessages := [], mQuitting := true } ∧
    MessageQueue.nextEventual { mMessages := [], mQuitting := true } = NextRes.nullopt :=
  ⟨(C4_failure_iff_quitting _ {} 0).1.mpr rfl,
   (C4_failure_iff_quitting _ {} 0).2.1 rfl,
   (C4_failure_iff_quitting { mMessages := [], mQuitting := true } {} 0).2.2.mpr rfl⟩

/-! Lemmas about dispatch and the loop pump. -/

theorem dispatchOne_of_callback (handle : Nat → Message → CbAct) (m : Message)
    (act : CbAct) (hc : m.callback = some act) :
    Looper.dispatchOne handle m = Dispatched.viaCallback act := by
  cases ht : m.target <;> simp [Looper.dispatchOne, hc, ht]

theorem dispatchOne_of_handler (handle : Nat → Message → CbAct) (m : Message)
    (h : Nat) (hc : m.callback = none) (ht : m.target = some h) :
    Looper.dispatchOne handle m
      = Dispatched.viaHandler h (Handler.dispatchMessage handle h m) := by
  simp [Looper.dispatchOne, hc, ht]

theorem dispatchOne_dropped (handle : Nat → Message → CbAct) (m : Message)
    (hc : m.callback = none) (ht : m.target = none) :
    Looper.dispatchOne handle m = Dispatched.dropped := by
  simp [Looper.dispatchOne, hc, ht]

theorem effect_of_ne_quit (act : CbAct) (q : MessageQueue)
    (h : act ≠ CbAct.quitLooper) : act.effect q = q := by
  cases act with
  | ret => rfl
  | raise => rfl
  | quitLooper => exact absurd rfl h

theorem dispatchEffect_id (handle : Nat → Message → CbAct) (m : Message)
    (q : MessageQueue) (hh : ∀ h m', handle h m' ≠ CbAct.quitLooper)
    (hcb : m.callback ≠ some CbAct.quitLooper) :
    Looper.dispatchEffect (Looper.dispatchOne handle m) q = q := by
  cases hc : m.callback with
  | some act =>
    rw [dispatchOne_of_callback handle m act hc]
    exact effect_of_ne_quit act q (fun he => hcb (he ▸ hc))
  | none =>
    cases ht : m.target with
    | some h =>
      rw [dispatchOne_of_handler handle m h hc ht]
      exact effect_of_ne_quit _ q (hh h m)
    | none =>
      rw [dispatchOne_dropped handle m hc ht]
      rfl

theorem runLoopFuel_cons (handle : Nat → Message → CbAct) (n : Nat)
    (m : Message) (rest : List Message) :
    Looper.runLoopFuel handle (n + 1) { mMessages := m :: rest, mQuitting := false } =
      (m, Looper.dispatchOne handle m) ::
        Looper.runLoopFuel handle n
          (Looper.dispatchEffect (Looper.dispatchOne handle m)
            { mMessages := rest, mQuitting := false }) := rfl

theorem runLoopFuel_of_quitting (handle : Nat → Message → CbAct) (n : Nat)
    (q : MessageQueue) (h : q.mQuitting = true) :
    Looper.runLoopFuel handle n q = [] := by
  cases n with
  | zero => rfl
  | succ n => simp [Looper.runLoopFuel, MessageQueue.nextEventual, h]

theorem runLoopFuel_dispatches_all (handle : Nat → Message → CbAct)
    (hh : ∀ h m, handle h m ≠ CbAct.quitLooper) :
    ∀ (n : Nat) (L : List Message), L.length ≤ n →
    (∀ m ∈ L, m.callback ≠ some CbAct.quitLooper) →
    (Looper.runLoopFuel handle n { mMessages := L, mQuitting := false }).map Prod.fst
      = L := by
  intro n
  induction n with
  | zero =>
    intro L hL _
    rw [List.length_eq_zero.mp (Nat.le_zero.mp hL)]
    rfl
  | succ n ih =>
    intro L hL hcb
    cases L with
    | nil => rfl
    | cons m rest =>
      rw [runLoopFuel_cons,
        dispatchEffect_id handle m _ hh (hcb m (List.mem_cons_self m rest))]
      simp only [List.map_cons]
      rw [ih rest (Nat.le_of_succ_le_succ (by simpa using hL))
        (fun m' hm' => hcb m' (List.mem_cons_of_mem m hm'))]

/-- C2: for every message dispatched by `Looper::loop`, a callback or
`handleMessage` body that throws is caught inside the loop, and the loop
proceeds to dequeue and dispatch every subsequent message: provided no
user body quits the looper (throwing bodies are allowed anywhere), the
dispatched sequence is the entire pending queue, so no user exception
terminates the loop. -/
theorem C2_exception_isolated (handle : Nat → Message → CbAct) (L : List Message)
    (hh : ∀ h m, handle h m ≠ CbAct.quitLooper)
    (hcb : ∀ m ∈ L, m.callback ≠ some CbAct.quitLooper) :
    (Looper.runLoop handle { mMessages := L, mQuitting := false }).map Prod.fst = L :=
  runLoopFuel_dispatches_all handle hh L.length L Nat.le.refl hcb

theorem C2_witness :
    (Looper.runLoop (fun _ _ => CbAct.ret)
      { mMessages := [{ callback := some CbAct.raise }, { callback := some CbAct.ret }],
        mQuitting := false }).map Prod.fst
      = [{ callback := some CbAct.raise }, { callback := some CbAct.ret }] :=
  C2_exception_isolated (fun _ _ => CbAct.ret)
    [{ callback := some CbAct.raise }, { callback := some CbAct.ret }]
    (fun _ _ h => CbAct.noConfusion h) (by decide)

/-- C5: when `Looper::loop` dequeues a message, a present callback is
invoked (and `handleMessage` is not); otherwise a present-and-alive
target receives `dispatchMessage`, whose default implementation delegates
to `handleMessage`; otherwise the message is discarded with a warning and
no user code runs. -/
theorem C5_dispatch_rule (handle : Nat → Message → CbAct) (msg : Message) :
    (∀ act, msg.callback = some act →
      Looper.dispatchOne handle msg = Dispatched.viaCallback act) ∧
    (∀ h, msg.callback = none → msg.target = some h →
      Looper.dispatchOne handle msg
        = Dispatched.viaHandler h (Handler.dispatchMessage handle h msg)) ∧
    (∀ h m, Handler.dispatchMessage handle h m = handle h m) ∧
    (msg.callback = none → msg.target = none →
      Looper.dispatchOne handle msg = Dispatched.dropped) :=
  ⟨fun act hc => dispatchOne_of_callback handle msg act hc,
   fun h hc ht => dispatchOne_of_handler handle msg h hc ht,
   fun _ _ => rfl,
   fun hc ht => dispatchOne_dropped handle msg hc ht⟩

theorem C5_witness :
    Looper.dispatchOne (fun _ _ => CbAct.ret)
      { callback := some CbAct.ret, target := some 7 }
      = Dispatched.viaCallback CbAct.ret ∧
    Looper.dispatchOne (fun _ _ => CbAct.ret) { target := some 7 }
      = Dispatched.viaHandler 7
          (Handler.dispatchMessage (fun _ _ => CbAct.ret) 7 { target := some 7 }) ∧
    Looper.dispatchOne (fun _ _ => CbAct.ret) {} = Dispatched.dropped :=
  ⟨(C5_dispatch_rule (fun _ _ => CbAct.ret)
      { callback := some CbAct.ret, target := some 7 }).1 CbAct.ret rfl,
   (C5_dispatch_rule (fun _ _ => CbAct.ret) { target := some 7 }).2.1 7 rfl rfl,
   (C5_dispatch_rule (fun _ _ => CbAct.ret) {}).2.2.2 rfl rfl⟩

/-! Lemmas about the sorted insert and the graceful/immediate shutdown. -/

theorem insertByWhen_sorted_split (t : Message) :
    ∀ L : List Message, L.Pairwise (fun a b => a.when ≤ b.when) →
    insertByWhen t L =
      L.filter (fun m => decide (m.when ≤ t.when)) ++
        t :: L.filter (fun m => decide (t.when < m.when)) := by
  intro L
  induction L with
  | nil => intro _; rfl
  | cons x xs ih =>
    intro hs
    rw [List.pairwise_cons] at hs
    by_cases hlt : t.when < x.when
    · have h1 : (x :: xs).filter (fun m => decide (m.when ≤ t.when)) = [] := by
        refine List.filter_eq_nil_iff.mpr ?_
        intro a ha
        rcases List.mem_cons.mp ha with h | h
        · subst h; simpa using Nat.not_le_of_lt hlt
        · simpa using Nat.not_le_of_lt (Nat.lt_of_lt_of_le hlt (hs.1 a h))
      have h2 : (x :: xs).filter (fun m => decide (t.when < m.when)) = x :: xs := by
        refine List.filter_eq_self.mpr ?_
        intro a ha
        rcases List.mem_cons.mp ha with h | h
        · subst h; simpa using hlt
        · simpa using Nat.lt_of_lt_of_le hlt (hs.1 a h)
      rw [h1, h2]
      simp [insertByWhen, hlt]
    · have hle : x.when ≤ t.when := Nat.le_of_not_lt hlt
      have h1 : (x :: xs).filter (fun m => decide (m.when ≤ t.when))
          = x :: xs.filter (fun m => decide (m.when ≤ t.when)) :=
        List.filter_cons_of_pos (by simpa using hle)
      have h2 : (x :: xs).filter (fun m => decide (t.when < m.when))
          = xs.filter (fun m => decide (t.when < m.when)) := by
        simp [List.filter_cons, hlt]
      rw [h1, h2]
      simp only [insertByWhen, if_neg hlt, List.cons_append]
      rw [ih hs.2]

theorem runLoopFuel_pre_term (handle : Nat → Message → CbAct) (term : Message)
    (hterm : term.callback = some CbAct.quitLooper) :
    ∀ (pre : List Message) (n : Nat) (post : List Message), pre.length < n →
    (∀ m ∈ pre, m.callback ≠ none ∧ m.callback ≠ some CbAct.quitLooper) →
    (Looper.runLoopFuel handle n
      { mMessages := pre ++ term :: post, mQuitting := false }).map Prod.fst
      = pre ++ [term] := by
  intro pre
  induction pre with
  | nil =>
    intro n post hn _
    cases n with
    | zero => exact absurd hn (Nat.not_lt_zero _)
    | succ n =>
      rw [List.nil_append, runLoopFuel_cons,
        dispatchOne_of_callback handle term CbAct.quitLooper hterm]
      have heff : Looper.dispatchEffect (Dispatched.viaCallback CbAct.quitLooper)
          { mMessages := post, mQuitting := false }
          = { mMessages := [], mQuitting := true } := by
        simp [Looper.dispatchEffect, CbAct.effect, MessageQueue.quit]
      rw [heff, runLoopFuel_of_quitting handle n _ rfl]
      rfl
  | cons m pre ih =>
    intro n post hn hcb
    cases n with
    | zero => exact absurd hn (Nat.not_lt_zero _)
    | succ n =>
      have hm := hcb m (List.mem_cons_self m pre)
      obtain ⟨act, hact⟩ : ∃ act, m.callback = some act := by
        cases hc : m.callback with
        | none => exact absurd hc hm.1
        | some a => exact ⟨a, rfl⟩
      have hne : act ≠ CbAct.quitLooper := fun he => hm.2 (he ▸ hact)
      rw [List.cons_append, runLoopFuel_cons,
        dispatchOne_of_callback handle m act hact]
      have heff : Looper.dispatchEffect (Dispatched.viaCallback act)
          { mMessages := pre ++ term :: post, mQuitting := false }
          = { mMessages := pre ++ term :: post, mQuitting := false } :=
        effect_of_ne_quit act _ hne
      rw [heff]
      simp only [List.map_cons, List.cons_append]
      rw [ih n post (Nat.lt_of_succ_lt_succ hn)
        (fun m' hm' => hcb m' (List.mem_cons_of_mem m hm'))]

/-- C6: `WorkerThread::finish` enqueues (successfully, at deadline `now`
with no extra delay) a terminal runnable whose effect is `Looper::quit`;
the loop then dispatches exactly the pending runnables whose deadline is
at most the terminal runnable's deadline, in queue order, followed by the
terminal runnable, and the pending runnables with later deadlines are
dropped by the quit and never executed; moreover any enqueue after the
quit is rejected. -/
theorem C6_finish_graceful_drain (h : Handler) (handle : Nat → Message → CbAct)
    (now : Nat) (L : List Message)
    (hsort : L.Pairwise (fun a b => a.when ≤ b.when))
    (hcb : ∀ m ∈ L, m.callback ≠ none ∧ m.callback ≠ some CbAct.quitLooper) :
    WorkerThread.finish h now { mMessages := L, mQuitting := false } =
      (true,
        { mMessages :=
            insertByWhen
              { Message.ofCallback CbAct.quitLooper (some h.id) with when := now } L,
          mQuitting := false }) ∧
    (Looper.runLoop handle
        (WorkerThread.finish h now { mMessages := L, mQuitting := false }).2).map
        Prod.fst
      = L.filter (fun m => decide (m.when ≤ now)) ++
          [{ Message.ofCallback CbAct.quitLooper (some h.id) with when := now }] ∧
    (∀ (m : Message) (w : Nat) (q : MessageQueue), q.mQuitting = true →
      (q.enqueueMessage m w).1 = false) := by
  have hfin : WorkerThread.finish h now { mMessages := L, mQuitting := false } =
      (true,
        { mMessages :=
            insertByWhen
              { Message.ofCallback CbAct.quitLooper (some h.id) with when := now } L,
          mQuitting := false }) := rfl
  refine ⟨hfin, ?_, fun m w q hq => congrArg Prod.fst (enqueueMessage_of_quitting m w hq)⟩
  rw [hfin]
  have hsplit := insertByWhen_sorted_split
    { Message.ofCallback CbAct.quitLooper (some h.id) with when := now } L hsort
  rw [hsplit]
  have hlen : (L.filter (fun m => decide (m.when ≤ now))).length <
      (L.filter (fun m => decide (m.when ≤ now)) ++
        { Message.ofCallback CbAct.quitLooper (some h.id) with when := now } ::
          L.filter (fun m => decide (now < m.when))).length := by
    simp [List.length_append]
  exact runLoopFuel_pre_term handle _ rfl _ _ _ hlen
    (fun m hm => hcb m (List.mem_of_mem_filter hm))

theorem C6_witness :
    WorkerThread.finish { id := 3 } 10
      { mMessages := [{ callback := some CbAct.ret, when := 0 },
                      { callback := some CbAct.raise, when := 20 }],
        mQuitting := false } =
      (true,
        { mMessages :=
            insertByWhen
              { Message.ofCallback CbAct.quitLooper (some 3) with when := 10 }
              [{ callback := some CbAct.ret, when := 0 },
               { callback := some CbAct.raise, when := 20 }],
          mQuitting := false }) ∧
    (Looper.runLoop (fun _ _ => CbAct.ret)
        (WorkerThread.finish { id := 3 } 10
          { mMessages := [{ callback := some CbAct.ret, when := 0 },
                          { callback := some CbAct.raise, when := 20 }],
            mQuitting := false }).2).map Prod.fst
      = [{ callback := some CbAct.ret, when := 0 }] ++
          [{ Message.ofCallback CbAct.quitLooper (some 3) with when := 10 }] ∧
    (MessageQueue.enqueueMessage { mMessages := [], mQuitting := true } {} 0).1 = false := by
  have h := C6_finish_graceful_drain { id := 3 } (fun _ _ => CbAct.ret) 10
    [{ callback := some CbAct.ret, when := 0 },
     { callback := some CbAct.raise, when := 20 }]
    (by decide) (by decide)
  exact ⟨h.1, by rw [h.2.1]; rfl, h.2.2 {} 0 _ rfl⟩

theorem dispatchEffect_on_quit (d : Dispatched) :
    Looper.dispatchEffect d { mMessages := [], mQuitting := true }
      = { mMessages := [], mQuitting := true } := by
  cases d with
  | viaCallback act => cases act <;> rfl
  | viaHandler h act => cases act <;> rfl
  | dropped => rfl

/-- C7: `WorkerThread::finishNow` calls `Looper::quit` directly and
returns `true`; all pending runnables are discarded and none of them is
dispatched afterwards, while a runnable the loop had already dequeued
(mid-execution when `finishNow` runs) still completes — the interleaving
dispatches exactly that one message. -/
theorem C7_finishNow_skips_pending (l : Looper) (m : Message)
    (rest : List Message) (handle : Nat → Message → CbAct)
    (hm : l.mQueue.mMessages = m :: rest) (hq : l.mQueue.mQuitting = false) :
    WorkerThread.finishNow l = (true, Looper.quit l) ∧
    (WorkerThread.finishNow l).2.mQueue.mMessages = [] ∧
    Looper.runLoop handle (WorkerThread.finishNow l).2.mQueue = [] ∧
    WorkerThread.finishNowDuringDispatch handle l
      = [(m, Looper.dispatchOne handle m)] := by
  obtain ⟨q, tid⟩ := l
  obtain ⟨msgs, quitting⟩ := q
  simp only at hm hq
  subst hm hq
  refine ⟨rfl, rfl, rfl, ?_⟩
  show WorkerThread.finishNowDuringDispatch handle
      { mQueue := { mMessages := m :: rest, mQuitting := false }, mThreadId := tid }
    = [(m, Looper.dispatchOne handle m)]
  simp [WorkerThread.finishNowDuringDispatch, MessageQueue.nextEventual,
    MessageQueue.popFront, WorkerThread.finishNow, Looper.quit, MessageQueue.quit,
    dispatchEffect_on_quit, Looper.runLoop, Looper.runLoopFuel]

theorem C7_witness :
    WorkerThread.finishNow
        { mQueue := { mMessages := [{ what := 1 }, { what := 2 }], mQuitting := false },
          mThreadId := 0 }
      = (true, Looper.quit
          { mQueue := { mMessages := [{ what := 1 }, { what := 2 }], mQuitting := false },
            mThreadId := 0 }) ∧
    (WorkerThread.finishNow
        { mQueue := { mMessages := [{ what := 1 }, { what := 2 }], mQuitting := false },
          mThreadId := 0 }).2.mQueue.mMessages = [] ∧
    Looper.runLoop (fun _ _ => CbAct.ret)
        (WorkerThread.finishNow
          { mQueue := { mMessages := [{ what := 1 }, { what := 2 }], mQuitting := false },
            mThreadId := 0 }).2.mQueue = [] ∧
    WorkerThread.finishNowDuringDispatch (fun _ _ => CbAct.ret)
        { mQueue := { mMessages := [{ what := 1 }, { what := 2 }], mQuitting := false },
          mThreadId := 0 }
      = [({ what := 1 }, Looper.dispatchOne (fun _ _ => CbAct.ret) { what := 1 })] :=
  C7_finishNow_skips_pending _ { what := 1 } [{ what := 2 }] (fun _ _ => CbAct.ret)
    rfl rfl

/-- C8: `Looper::loop` invoked on a thread other than the Looper's owning
thread fails with the `wrongThread` error and returns no dispatch list
(no message is dispatched); `prepare` records the calling thread as the
owner, and `loop` pumps the queue exactly when invoked on that thread. -/
theorem C8_loop_wrong_thread (me : Looper) (tid tid' : Nat)
    (handle : Nat → Message → CbAct) :
    (tid' ≠ me.mThreadId →
      Looper.loopEntry (some me) tid' handle = Except.error LooperErr.wrongThread) ∧
    (∀ l, Looper.prepare none tid = Except.ok l → l.mThreadId = tid) ∧
    (∀ ds, Looper.loopEntry (some me) tid handle = Except.ok ds →
      tid = me.mThreadId ∧ ds = Looper.runLoop handle me.mQueue) := by
  refine ⟨?_, ?_, ?_⟩
  · intro hne
    have h88 : ¬ me.mThreadId = tid' := fun hx => hne hx.symm
    simp [Looper.loopEntry, h88]
  · intro l hl
    simp [Looper.prepare] at hl
    rw [← hl]
  · intro ds hds
    by_cases h : me.mThreadId = tid
    · simp [Looper.loopEntry, h] at hds
      exact ⟨h.symm, hds.symm⟩
    · simp [Looper.loopEntry, h] at hds

theorem C8_witness :
    Looper.loopEntry
        (some { mQueue := { mMessages := [], mQuitting := false }, mThreadId := 1 }) 2
        (fun _ _ => CbAct.ret)
      = Except.error LooperErr.wrongThread ∧
    ({ mQueue := { mMessages := [], mQuitting := false }, mThreadId := 5 } : Looper).mThreadId
      = 5 :=
  ⟨(C8_loop_wrong_thread
      { mQueue := { mMessages := [], mQuitting := false }, mThreadId := 1 } 1 2
      (fun _ _ => CbAct.ret)).1 (by decide),
   (C8_loop_wrong_thread
      { mQueue := { mMessages := [], mQuitting := false }, mThreadId := 5 } 5 2
      (fun _ _ => CbAct.ret)).2.1 _ rfl⟩

/-- C9: when the spawned thread's `Looper::prepare` or early loop setup
fails, `HandlerThread::run` publishes the failure through the one-shot
channel, and `getLooper` surfaces that failure to its caller (the caller
receives no Looper rather than a valid handle, in contrast with the
successful publication); and for a `HandlerThread` whose `start` was
never called, `getLooper` returns none immediately — never blocking —
whatever the channel state is. -/
theorem C9_publication_failure_surfaced (e : String)
    (chan : Option (Except String Looper)) (l : Looper) :
    HandlerThread.runPublish (Except.error e) = some (Except.error e) ∧
    HandlerThread.getLooperStep true (HandlerThread.runPublish (Except.error e))
      = GetLooperRes.ret none ∧
    HandlerThread.getLooperStep true (HandlerThread.runPublish (Except.ok l))
      = GetLooperRes.ret (some l) ∧
    HandlerThread.getLooperStep false chan = GetLooperRes.ret none :=
  ⟨rfl, rfl, rfl, rfl⟩

/-- C10: `Handler::sendMessageAtTime` sets the message's target to the
sending handler itself before enqueuing, overwriting any previously
stored target; `sendMessage` and `sendMessageDelayed` (with negative
delays clamped) delegate to it, and `Message::sendToTarget` delegates to
the stored target's `sendMessageAtTime`; consequently the enqueued
message carries the sending handler as target and, when it has no
callback, it is dispatched to the sending handler's `dispatchMessage`. -/
theorem C10_send_sets_target_to_sender (h : Handler) (msg : Message)
    (w now : Nat) (q : MessageQueue) (d : Int) (t : Nat)
    (handle : Nat → Message → CbAct) :
    Handler.sendMessageAtTime h msg w q
      = q.enqueueMessage { msg with target := some h.id } w ∧
    Handler.sendMessage h msg now q = Handler.sendMessageAtTime h msg now q ∧
    Handler.sendMessageDelayed h msg d now q
      = Handler.sendMessageAtTime h msg
          (now + (if d < 0 then 0 else d).toNat) q ∧
    (msg.target = some t →
      Message.sendToTarget msg now q
        = Handler.sendMessageAtTime { id := t } msg now q) ∧
    (q.mQuitting = false →
      (Handler.sendMessageAtTime h msg w q).2.mMessages
        = insertByWhen { msg with target := some h.id, when := w } q.mMessages) ∧
    (msg.callback = none →
      Looper.dispatchOne handle { msg with target := some h.id, when := w }
        = Dispatched.viaHandler h.id
            (Handler.dispatchMessage handle h.id
              { msg with target := some h.id, when := w })) := by
  refine ⟨rfl, rfl, rfl, ?_, ?_, ?_⟩
  · intro ht
    simp [Message.sendToTarget, ht]
  · intro hq
    show (MessageQueue.enqueueMessage q { msg with target := some h.id } w).2.mMessages = _
    rw [enqueueMessage_of_not_quitting _ w hq]
  · intro hc
    exact dispatchOne_of_handler handle _ h.id (by simpa using hc) rfl

theorem C10_witness :
    Handler.sendMessageAtTime { id := 4 } { what := 9, target := some 8 } 7
        { mMessages := [], mQuitting := false }
      = MessageQueue.enqueueMessage { mMessages := [], mQuitting := false }
          { what := 9, target := some 4 } 7 ∧
    Message.sendToTarget { what := 9, target := some 8 } 7
        { mMessages := [], mQuitting := false }
      = Handler.sendMessageAtTime { id := 8 } { what := 9, target := some 8 } 7
          { mMessages := [], mQuitting := false } ∧
    (Handler.sendMessageAtTime { id := 4 } { what := 9, target := some 8 } 7
        { mMessages := [], mQuitting := false }).2.mMessages
      = insertByWhen { what := 9, target := some 4, when := 7 } [] ∧
    Looper.dispatchOne (fun _ _ => CbAct.ret)
        { what := 9, target := some 4, when := 7 }
      = Dispatched.viaHandler 4
          (Handler.dispatchMessage (fun _ _ => CbAct.ret) 4
            { what := 9, target := some 4, when := 7 }) := by
  have hx := C10_send_sets_target_to_sender { id := 4 } { what := 9, target := some 8 }
    7 7 { mMessages := [], mQuitting := false } 0 8 (fun _ _ => CbAct.ret)
  exact ⟨hx.1, hx.2.2.2.1 rfl, hx.2.2.2.2.1 rfl, hx.2.2.2.2.2 rfl⟩

/-! Lemmas about the ordering guarantee of the queue. -/

theorem insertByWhenT_map_snd (t : Nat × Message) :
    ∀ L : List (Nat × Message),
    (insertByWhenT t L).map Prod.snd = insertByWhen t.2 (L.map Prod.snd) := by
  intro L
  induction L with
  | nil => rfl
  | cons x xs ih =>
    by_cases hx : t.2.when < x.2.when
    · simp [insertByWhenT, insertByWhen, hx]
    · simp [insertByWhenT, insertByWhen, hx, ih]

theorem enqueueAll_sim : ∀ (ps : List (Message × Nat)) (i : Nat)
    (L : List (Nat × Message)),
    MessageQueue.enqueueAll ps { mMessages := L.map Prod.snd, mQuitting := false }
      = { mMessages := (enqueueAllT i ps L).map Prod.snd, mQuitting := false } := by
  intro ps
  induction ps with
  | nil => intro i L; rfl
  | cons p ps ih =>
    intro i L
    show MessageQueue.enqueueAll ps
        (MessageQueue.enqueueMessage
          { mMessages := L.map Prod.snd, mQuitting := false } p.1 p.2).2
      = { mMessages :=
            (enqueueAllT (i + 1) ps
              (insertByWhenT (i, { p.1 with when := p.2 }) L)).map Prod.snd,
          mQuitting := false }
    have h1 : (MessageQueue.enqueueMessage
        { mMessages := L.map Prod.snd, mQuitting := false } p.1 p.2).2
        = { mMessages := (insertByWhenT (i, { p.1 with when := p.2 }) L).map Prod.snd,
            mQuitting := false } := by
      rw [insertByWhenT_map_snd]
      rfl
    rw [h1]
    exact ih (i + 1) _

theorem insertByWhenT_perm (t : Nat × Message) :
    ∀ L : List (Nat × Message), List.Perm (insertByWhenT t L) (t :: L) := by
  intro L
  induction L with
  | nil => exact List.Perm.refl _
  | cons x xs ih =>
    by_cases hx : t.2.when < x.2.when
    · rw [show insertByWhenT t (x :: xs) = t :: x :: xs from if_pos hx]
    · rw [show insertByWhenT t (x :: xs) = x :: insertByWhenT t xs from if_neg hx]
      exact (ih.cons x).trans (List.Perm.swap t x xs)

theorem enqueueAllT_perm : ∀ (ps : List (Message × Nat)) (i : Nat)
    (L : List (Nat × Message)),
    List.Perm (enqueueAllT i ps L) (L ++ tagMsgs i ps) := by
  intro ps
  induction ps with
  | nil => intro i L; simp [enqueueAllT, tagMsgs]
  | cons p ps ih =>
    intro i L
    show List.Perm
      (enqueueAllT (i + 1) ps (insertByWhenT (i, { p.1 with when := p.2 }) L))
      (L ++ tagMsgs i (p :: ps))
    have h1 := ih (i + 1) (insertByWhenT (i, { p.1 with when := p.2 }) L)
    have h2 : List.Perm
        (insertByWhenT (i, { p.1 with when := p.2 }) L ++ tagMsgs (i + 1) ps)
        (((i, { p.1 with when := p.2 }) :: L) ++ tagMsgs (i + 1) ps) :=
      (insertByWhenT_perm _ L).append_right _
    exact h1.trans (h2.trans List.perm_middle.symm)

theorem insertByWhenT_pairwise (i : Nat) (m : Message) :
    ∀ L : List (Nat × Message), L.Pairwise tagLt → (∀ x ∈ L, x.1 < i) →
    (insertByWhenT (i, m) L).Pairwise tagLt := by
  intro L
  induction L with
  | nil =>
    intro _ _
    exact List.pairwise_singleton tagLt (i, m)
  | cons x xs ih =>
    intro hp hb
    rw [List.pairwise_cons] at hp
    by_cases hx : ((i, m) : Nat × Message).2.when < x.2.when
    · rw [show insertByWhenT (i, m) (x :: xs) = (i, m) :: x :: xs from if_pos hx]
      rw [List.pairwise_cons]
      refine ⟨?_, List.pairwise_cons.mpr hp⟩
      intro b hb'
      rcases List.mem_cons.mp hb' with h | h
      · subst h; exact Or.inl hx
      · have hxb : x.2.when ≤ b.2.when := by
          rcases hp.1 b h with h1 | h1
          · exact Nat.le_of_lt h1
          · exact Nat.le_of_eq h1.1
        exact Or.inl (Nat.lt_of_lt_of_le hx hxb)
    · rw [show insertByWhenT (i, m) (x :: xs) = x :: insertByWhenT (i, m) xs
        from if_neg hx]
      rw [List.pairwise_cons]
      constructor
      · intro b hb'
        have hmem : b ∈ (i, m) :: xs :=
          (insertByWhenT_perm (i, m) xs).mem_iff.mp hb'
        rcases List.mem_cons.mp hmem with h | h
        · subst h
          rcases Nat.lt_or_ge x.2.when m.when with h1 | h1
          · exact Or.inl h1
          · have he : x.2.when = m.when :=
              Nat.le_antisymm (Nat.le_of_not_lt hx) h1
            exact Or.inr ⟨he, hb x (List.mem_cons_self x xs)⟩
        · exact hp.1 b h
      · exact ih hp.2 (fun y hy => hb y (List.mem_cons_of_mem x hy))

theorem enqueueAllT_pairwise : ∀ (ps : List (Message × Nat)) (i : Nat)
    (L : List (Nat × Message)), L.Pairwise tagLt → (∀ x ∈ L, x.1 < i) →
    (enqueueAllT i ps L).Pairwise tagLt := by
  intro ps
  induction ps with
  | nil => intro i L hp _; exact hp
  | cons p ps ih =>
    intro i L hp hb
    show (enqueueAllT (i + 1) ps
      (insertByWhenT (i, { p.1 with when := p.2 }) L)).Pairwise tagLt
    refine ih (i + 1) _ (insertByWhenT_pairwise i _ L hp hb) ?_
    intro x hx
    have hmem : x ∈ (i, { p.1 with when := p.2 }) :: L :=
      (insertByWhenT_perm _ L).mem_iff.mp hx
    rcases List.mem_cons.mp hmem with h | h
    · subst h; exact Nat.lt_succ_self i
    · exact Nat.lt_succ_of_lt (hb x h)

theorem drainFuel_eq : ∀ (n : Nat) (L : List Message), L.length ≤ n →
    MessageQueue.drainFuel n { mMessages := L, mQuitting := false } = L := by
  intro n
  induction n with
  | zero =>
    intro L h
    rw [List.length_eq_zero.mp (Nat.le_zero.mp h)]
    rfl
  | succ n ih =>
    intro L h
    cases L with
    | nil => rfl
    | cons m rest =>
      show m :: MessageQueue.drainFuel n { mMessages := rest, mQuitting := false }
        = m :: rest
      exact congrArg (List.cons m)
        (ih rest (Nat.le_of_succ_le_succ (by simpa using h)))

theorem drain_of_not_quitting (L : List Message) :
    MessageQueue.drain { mMessages := L, mQuitting := false } = L :=
  drainFuel_eq L.length L Nat.le.refl

theorem enqueueResults_all_true : ∀ (ps : List (Message × Nat)) (q : MessageQueue),
    q.mQuitting = false →
    MessageQueue.enqueueResults q ps = ps.map (fun _ => true) := by
  intro ps
  induction ps with
  | nil => intro q _; rfl
  | cons p ps ih =>
    intro q hq
    show (q.enqueueMessage p.1 p.2).1 ::
        MessageQueue.enqueueResults (q.enqueueMessage p.1 p.2).2 ps
      = true :: ps.map (fun _ => true)
    rw [enqueueMessage_of_not_quitting p.1 p.2 hq]
    exact congrArg (List.cons true) (ih _ hq)

/-- C1: for every sequence of `enqueueMessage` calls on one fresh
`MessageQueue` (all of which succeed), the order in which `next()` yields
the messages is the stable ordering by (ascending deadline, ascending
enqueue index): tagging each enqueued message with its enqueue index,
the drained sequence is a permutation of the enqueued messages that is
pairwise sorted by `tagLt`, so a message with a strictly smaller `when`
comes out before one with a larger `when` regardless of enqueue order,
and messages with equal `when` come out in enqueue order. -/
theorem C1_dispatch_order_stable (ps : List (Message × Nat)) :
    MessageQueue.enqueueResults { mMessages := [], mQuitting := false } ps
      = ps.map (fun _ => true) ∧
    ∃ T : List (Nat × Message),
      MessageQueue.drain
          (MessageQueue.enqueueAll ps { mMessages := [], mQuitting := false })
        = T.map Prod.snd ∧
      List.Perm T (tagMsgs 0 ps) ∧
      T.Pairwise tagLt := by
  refine ⟨enqueueResults_all_true ps _ rfl, enqueueAllT 0 ps [], ?_, ?_, ?_⟩
  · have hsim : MessageQueue.enqueueAll ps { mMessages := [], mQuitting := false }
        = { mMessages := (enqueueAllT 0 ps []).map Prod.snd, mQuitting := false } :=
      enqueueAll_sim ps 0 []
    rw [hsim]
    exact drain_of_not_quitting _
  · exact enqueueAllT_perm ps 0 []
  · exact enqueueAllT_pairwise ps 0 [] List.Pairwise.nil
      (fun x hx => absurd hx (List.not_mem_nil x))
